import Mathlib

/-!
Verification of the preconditioned generalized-binomial power evaluator
(`aqueeq_binomial` in `src/aqueeq_binomial.py`).

The evaluator works on Python `complex` values (pairs of machine floats).
We idealise the floating-point components as exact rationals: `QComplex`
below is a pair of rationals, and every operation the algorithm performs
on its way to a branch decision (equality tests, magnitude comparisons,
the multiplicative series recurrence, the continued-fraction
`limit_denominator` computation) is exact rational arithmetic, so the
whole control flow of the source is computable here.  Only the final
numeric results (principal complex powers, `exp`, `log`, real roots) are
transcendental; they are produced by a separate interpretation function
`valueOf` into Mathlib's `ℂ`.

Magnitude comparisons in the source (`abs(term) < 1e-16 * abs(S)` and so
on) are encoded by comparisons of squared magnitudes over `ℚ`; the
lemmas `absLtScaled_iff`, `absLtConst_iff` and `absGtConst_iff` prove
that each encoding is equivalent to the corresponding comparison of real
absolute values, with no side condition, so the encoded control flow is
exactly the source's control flow.
-/

namespace Aqueeq

/-- A Python `complex` value: a pair of (idealised) machine floats. -/
structure QComplex where
  re : ℚ
  im : ℚ
deriving DecidableEq, Repr

instance : Zero QComplex := ⟨⟨0, 0⟩⟩

instance : One QComplex := ⟨⟨1, 0⟩⟩

instance : Add QComplex := ⟨fun a b => ⟨a.re + b.re, a.im + b.im⟩⟩

instance : Neg QComplex := ⟨fun a => ⟨-a.re, -a.im⟩⟩

instance : Sub QComplex := ⟨fun a b => ⟨a.re - b.re, a.im - b.im⟩⟩

instance : Mul QComplex :=
  ⟨fun a b => ⟨a.re * b.re - a.im * b.im, a.re * b.im + a.im * b.re⟩⟩

/-- Squared magnitude `re² + im²` (exact, rational). -/
def normSq (a : QComplex) : ℚ := a.re * a.re + a.im * a.im

instance : Inv QComplex :=
  ⟨fun a => ⟨a.re / normSq a, -a.im / normSq a⟩⟩

instance : Div QComplex := ⟨fun a b => a * b⁻¹⟩

/-- Embedding of a rational as a complex value with zero imaginary part
(Python mixes ints/floats into complex arithmetic this way). -/
def ofQ (q : ℚ) : QComplex := ⟨q, 0⟩

/-- Interpretation into Mathlib's complex numbers. -/
noncomputable def toC (a : QComplex) : ℂ := ⟨(a.re : ℝ), (a.im : ℝ)⟩

/-- Encoding of the source comparison `abs A < c * abs B` by squared
magnitudes.  `absLtScaled_iff` proves it equivalent for every `c`. -/
def absLtScaled (A : QComplex) (c : ℚ) (B : QComplex) : Prop :=
  0 < c ∧ normSq A < c ^ 2 * normSq B

instance (A : QComplex) (c : ℚ) (B : QComplex) : Decidable (absLtScaled A c B) :=
  inferInstanceAs (Decidable (0 < c ∧ normSq A < c ^ 2 * normSq B))

/-- Encoding of the source comparison `abs A < c`. -/
def absLtConst (A : QComplex) (c : ℚ) : Prop :=
  0 < c ∧ normSq A < c ^ 2

instance (A : QComplex) (c : ℚ) : Decidable (absLtConst A c) :=
  inferInstanceAs (Decidable (0 < c ∧ normSq A < c ^ 2))

/-- Encoding of the source comparison `abs A > c`. -/
def absGtConst (A : QComplex) (c : ℚ) : Prop :=
  c < 0 ∨ (0 ≤ c ∧ c ^ 2 < normSq A)

instance (A : QComplex) (c : ℚ) : Decidable (absGtConst A c) :=
  inferInstanceAs (Decidable (c < 0 ∨ (0 ≤ c ∧ c ^ 2 < normSq A)))

/-- The continued-fraction loop of CPython's
`Fraction.limit_denominator`: state `(n, d, p0, q0, p1, q1)`, stopping
when the next convergent's denominator `q2` would exceed `maxd`.
Python's `//` is floor division, hence `Int.fdiv`.  The loop in the
source terminates by breaking before `d` can reach `0`; the fuel and the
`d = 0` guard only totalise the Lean translation and are never hit when
the fuel is at least the starting denominator. -/
def lmLoop (maxd : ℤ) : ℕ → ℤ → ℤ → ℤ → ℤ → ℤ → ℤ → ℤ × ℤ × ℤ × ℤ
  | 0, _, _, p0, q0, p1, q1 => (p0, q0, p1, q1)
  | fuel + 1, n, d, p0, q0, p1, q1 =>
    if d = 0 then (p0, q0, p1, q1)
    else
      let a := Int.fdiv n d
      let q2 := q0 + a * q1
      if maxd < q2 then (p0, q0, p1, q1)
      else lmLoop maxd fuel d (n - a * d) p1 q1 (p0 + a * p1) q2

/-- CPython's `Fraction.limit_denominator(maxd)`: the closest rational
approximation to `q` with denominator at most `maxd`.  (The source calls
it with `maxd = 1000`, so the `max_denominator < 1` error path of the
original is unreachable and not modelled.) -/
def limit_denominator (q : ℚ) (maxd : ℕ) : ℚ :=
  if q.den ≤ maxd then q
  else
    let r := lmLoop (maxd : ℤ) (q.den + 1) q.num (q.den : ℤ) 0 1 1 0
    let k := Int.fdiv ((maxd : ℤ) - r.2.1) r.2.2.2
    let bound1 : ℚ := ((r.1 + k * r.2.2.1 : ℤ) : ℚ) / ((r.2.1 + k * r.2.2.2 : ℤ) : ℚ)
    let bound2 : ℚ := ((r.2.2.1 : ℤ) : ℚ) / ((r.2.2.2 : ℤ) : ℚ)
    if |bound2 - q| ≤ |bound1 - q| then bound2 else bound1

/-- The series summation loop (source lines 98-110).  State is
`(S, term, k)`; the result is the state at loop exit.  The structure
mirrors the Python `while k <= effective_max` loop: update the term by
the multiplicative recurrence, stop before accumulating if the term is
below the absolute floor, otherwise accumulate and stop if the relative
tolerance is met, otherwise `k += 1` and continue.  The fuel argument
only drives the recursion; `run` supplies `effMax + 1`, which is enough
for the loop to exit on its own condition, so the translation is exact. -/
def seriesLoop (alpha z : QComplex) (tol : ℚ) (effMax : ℕ) :
    ℕ → QComplex → QComplex → ℕ → QComplex × QComplex × ℕ
  | 0, S, term, k => (S, term, k)
  | fuel + 1, S, term, k =>
    if k ≤ effMax then
      let term2 := term * ((alpha - ofQ (k : ℚ) + 1) * z / ofQ (k : ℚ))
      if absLtScaled term2 (1 / 10 ^ 16) S ∨ absLtConst term2 (1 / 10 ^ 14) then
        (S, term2, k)
      else
        let S2 := S + term2
        if absLtScaled term2 tol S2 then (S2, term2, k)
        else seriesLoop alpha z tol effMax fuel S2 term2 (k + 1)
    else (S, term, k)

/-- The series loop as started by the evaluator: `S = term = 1`, `k = 1`. -/
def seriesRun (alpha z : QComplex) (tol : ℚ) (effMax : ℕ) :
    QComplex × QComplex × ℕ :=
  seriesLoop alpha z tol effMax (effMax + 1) 1 1 1

/-- `effective_max` (source lines 94-96): the iteration budget, tripled in
the near-boundary band `0.75 < |z| <= boundary_threshold`. -/
def effectiveMax (mt : ℕ) (z : QComplex) (bt : ℚ) : ℕ :=
  if absGtConst z (3 / 4) ∧ ¬ absGtConst z bt then max mt (mt * 3) else mt

/-- The non-fatal advisory channel (`warnings.warn(...)` in the source).
Each constructor carries the data interpolated into the warning text. -/
inductive Advisory where
  | equalMag : Advisory
  | boundary (z : QComplex) (threshold : ℚ) : Advisory
  | nonConvergence (terms : ℕ) (z : QComplex) (lastTerm : QComplex) : Advisory
deriving DecidableEq, Repr

/-- The diagnostics dict (`info` in the source).  Keys that a given
branch does not set are `none`.  The source's `last_term_abs` entry is
`abs` of `last_term`; we keep the term itself (its magnitude is
`Complex.abs (toC lastTerm)`).  `z` is `some 0` where the source stores
`0j` and `none` where it stores `None`. -/
structure Info where
  terms_used : ℕ
  used_fallback : Bool
  z : Option QComplex
  note : Option String
  last_term : Option QComplex
  converged : Option Bool
  base : Option QComplex
deriving DecidableEq, Repr

/-- Which terminal branch of the evaluator produced the result, carrying
the data the branch's numeric value is built from. -/
inductive Branch where
  | powY : Branch
  | oddRoot : Branch
  | powX : Branch
  | cancelZero : Branch
  | zeroSumZero : Branch
  | equalMag : Branch
  | boundaryFB : Branch
  | series (A S : QComplex) : Branch
deriving DecidableEq, Repr

/-- The message of the single fatal error (source line 59). -/
def zeroSumMsg : String :=
  "Cannot reliably compute 0 raised to non-positive or complex power"

/-- Dominant operand `A` selected by the preconditioner (source lines
65-71): the operand of larger magnitude. -/
def precondA (x y : QComplex) : QComplex :=
  if normSq x < normSq y then y else x

/-- Preconditioned ratio `z = B / A`: minor operand over dominant one. -/
def precondZ (x y : QComplex) : QComplex :=
  if normSq x < normSq y then x / y else y / x

/-- Boundary policy and series summation (source lines 79-132), given the
preconditioned `A` and `z`. -/
def stage34 (alpha : QComplex) (tol : ℚ) (mt : ℕ) (bt : ℚ) (A z : QComplex) :
    Except String (Branch × Info × List Advisory) :=
  if absGtConst z bt then
    Except.ok (Branch.boundaryFB,
      ⟨0, true, some z, none, none, none, none⟩,
      [Advisory.boundary z bt])
  else
    let effMax := effectiveMax mt z bt
    let r := seriesRun alpha z tol effMax
    let advs : List Advisory :=
      if effMax ≤ r.2.2 ∧ ¬ absLtScaled r.2.1 tol r.1 then
        [Advisory.nonConvergence effMax z r.2.1]
      else []
    Except.ok (Branch.series A r.1,
      ⟨r.2.2, false, some z, none, some r.2.1,
        some (decide (absLtScaled r.2.1 tol r.1)), some A⟩,
      advs)

/-- The full control flow of `aqueeq_binomial` (source lines 21-132):
edge-case resolution in strict priority order, then preconditioning,
then boundary policy and series summation.  Returns which branch fired,
the diagnostics record, and the advisories emitted; the numeric value of
the branch is attached by `valueOf` below. -/
def run (x y alpha : QComplex) (tol : ℚ) (mt : ℕ) (bt : ℚ) :
    Except String (Branch × Info × List Advisory) :=
  if x = 0 ∧ y ≠ 0 then
    Except.ok (Branch.powY, ⟨0, false, some 0, none, none, none, none⟩, [])
  else if y = 0 ∧ x ≠ 0 then
    if x.im = 0 ∧ alpha.im = 0 ∧ x.re < 0 ∧
        (limit_denominator alpha.re 1000).den % 2 = 1 then
      Except.ok (Branch.oddRoot,
        ⟨0, false, some 0, some "real odd root", none, none, none⟩, [])
    else
      Except.ok (Branch.powX, ⟨0, false, some 0, none, none, none, none⟩, [])
  else if x = -y ∧ alpha.im = 0 ∧ alpha.re.den = 1 then
    Except.ok (Branch.cancelZero, ⟨0, false, none, none, none, none, none⟩, [])
  else if x + y = 0 then
    if 0 < alpha.re ∧ alpha.im = 0 then
      Except.ok (Branch.zeroSumZero, ⟨0, true, none, none, none, none, none⟩, [])
    else
      Except.error zeroSumMsg
  else if normSq x < normSq y ∨ normSq y < normSq x then
    stage34 alpha tol mt bt (precondA x y) (precondZ x y)
  else
    Except.ok (Branch.equalMag,
      ⟨0, true, none, none, none, none, none⟩, [Advisory.equalMag])

/-- Numeric value of each terminal branch.  Principal complex powers
(`**`, `cmath.exp`, `cmath.log`) are Mathlib's `cpow`, `Complex.exp`,
`Complex.log`; the real root `abs(x.real) ** alpha.real` is `Real.rpow`. -/
noncomputable def valueOf (x y alpha : QComplex) : Branch → ℂ
  | Branch.powY => toC y ^ toC alpha
  | Branch.oddRoot => Complex.ofReal (-(((|x.re| : ℚ) : ℝ) ^ ((alpha.re : ℚ) : ℝ)))
  | Branch.powX => toC x ^ toC alpha
  | Branch.cancelZero => 0
  | Branch.zeroSumZero => 0
  | Branch.equalMag => Complex.exp (toC alpha * Complex.log (toC (x + y)))
  | Branch.boundaryFB => Complex.exp (toC alpha * Complex.log (toC (x + y)))
  | Branch.series A S => Complex.exp (toC alpha * Complex.log (toC A)) * toC S

/-- The evaluator: control flow of `run`, with the branch interpreted as
its complex numeric value.  `Except.error` is the `ValueError` raise;
`Except.ok` carries the value, the diagnostics record (always computed;
the Python `return_info` flag only selects whether it is handed back),
and the list of advisories emitted during the call. -/
noncomputable def aqueeq_binomial (x y alpha : QComplex) (tol : ℚ) (mt : ℕ) (bt : ℚ) :
    Except String (ℂ × Info × List Advisory) :=
  (run x y alpha tol mt bt).map (fun p => (valueOf x y alpha p.1, p.2.1, p.2.2))

/-- Statement that the zero-sum domain error is the evaluator's only
fatal path: every invocation that errors does so with the zero-sum
message, on a zero-sum input whose exponent is not real positive. -/
def onlyZeroSumErrors : Prop :=
  ∀ (x y alpha : QComplex) (tol : ℚ) (mt : ℕ) (bt : ℚ) (msg : String),
    aqueeq_binomial x y alpha tol mt bt = Except.error msg →
      msg = zeroSumMsg ∧ x + y = 0 ∧ ¬ (alpha.im = 0 ∧ 0 < alpha.re)

/-! ### Unfolding equations for the arithmetic instances -/

theorem zero_def : (0 : QComplex) = ⟨0, 0⟩ := rfl

theorem one_def : (1 : QComplex) = ⟨1, 0⟩ := rfl

theorem add_def (a b : QComplex) : a + b = ⟨a.re + b.re, a.im + b.im⟩ := rfl

theorem neg_def (a : QComplex) : -a = ⟨-a.re, -a.im⟩ := rfl

theorem sub_def (a b : QComplex) : a - b = ⟨a.re - b.re, a.im - b.im⟩ := rfl

theorem mul_def (a b : QComplex) :
    a * b = ⟨a.re * b.re - a.im * b.im, a.re * b.im + a.im * b.re⟩ := rfl

theorem inv_def (a : QComplex) : a⁻¹ = ⟨a.re / normSq a, -a.im / normSq a⟩ := rfl

theorem div_def (a b : QComplex) : a / b = a * b⁻¹ := rfl

theorem neg_add_self_q (y : QComplex) : -y + y = 0 := by
  cases y
  simp [neg_def, add_def, zero_def]

theorem eq_neg_imp_add_zero {x y : QComplex} (h : x = -y) : x + y = 0 := by
  subst h
  exact neg_add_self_q y

theorem ne_zero_of_re_neg {x : QComplex} (h : x.re < 0) : x ≠ 0 := by
  intro h0
  rw [h0, zero_def] at h
  exact absurd h (by norm_num)

/-! ### The interpretation `toC` is an exact field embedding -/

theorem toC_zero : toC 0 = 0 := by
  apply Complex.ext <;> simp [toC, zero_def]

theorem toC_one : toC 1 = 1 := by
  apply Complex.ext <;> simp [toC, one_def]

theorem toC_add (a b : QComplex) : toC (a + b) = toC a + toC b := by
  apply Complex.ext <;> simp [toC, add_def]

theorem toC_mul (a b : QComplex) : toC (a * b) = toC a * toC b := by
  apply Complex.ext <;> simp [toC, mul_def]

theorem normSq_toC (a : QComplex) :
    Complex.normSq (toC a) = ((normSq a : ℚ) : ℝ) := by
  rw [toC, Complex.normSq_mk, normSq]
  push_cast
  ring

theorem toC_inv (a : QComplex) : toC a⁻¹ = (toC a)⁻¹ := by
  apply Complex.ext
  · rw [Complex.inv_re, normSq_toC]
    simp [toC, inv_def]
  · rw [Complex.inv_im, normSq_toC]
    simp [toC, inv_def]

theorem toC_div (a b : QComplex) : toC (a / b) = toC a / toC b := by
  rw [div_def, toC_mul, toC_inv, div_eq_mul_inv]

theorem toC_eq_zero {a : QComplex} : toC a = 0 ↔ a = 0 := by
  constructor
  · intro h
    have h1 := congrArg Complex.re h
    have h2 := congrArg Complex.im h
    simp [toC] at h1 h2
    cases a
    simp_all [zero_def]
  · intro h
    rw [h, toC_zero]

theorem toC_mk_real (q : ℚ) : toC ⟨q, 0⟩ = Complex.ofReal (q : ℝ) := by
  apply Complex.ext <;> simp [toC]

/-! ### The squared-magnitude encodings agree with real comparisons -/

theorem normSq_nonneg_q (a : QComplex) : 0 ≤ normSq a :=
  add_nonneg (mul_self_nonneg a.re) (mul_self_nonneg a.im)

theorem abs_toC_sq (a : QComplex) :
    Complex.abs (toC a) ^ 2 = ((normSq a : ℚ) : ℝ) := by
  rw [Complex.sq_abs, normSq_toC]

theorem absLtScaled_iff (A : QComplex) (c : ℚ) (B : QComplex) :
    absLtScaled A c B ↔ Complex.abs (toC A) < (c : ℝ) * Complex.abs (toC B) := by
  unfold absLtScaled
  rcases le_or_lt c 0 with hc | hc
  · have hcR : (c : ℝ) ≤ 0 := by exact_mod_cast hc
    constructor
    · rintro ⟨h, -⟩
      exact absurd h (not_lt.mpr hc)
    · intro h
      exfalso
      nlinarith [Complex.abs.nonneg (toC A), Complex.abs.nonneg (toC B)]
  · have hcR : (0 : ℝ) < (c : ℝ) := by exact_mod_cast hc
    constructor
    · rintro ⟨-, h⟩
      have h3 : Complex.abs (toC A) ^ 2 < ((c : ℝ) * Complex.abs (toC B)) ^ 2 := by
        rw [abs_toC_sq, mul_pow, abs_toC_sq]
        have hq : ((normSq A : ℚ) : ℝ) < ((c ^ 2 * normSq B : ℚ) : ℝ) := by
          exact_mod_cast h
        push_cast at hq
        linarith
      exact lt_of_pow_lt_pow_left₀ 2 (by positivity) h3
    · intro h
      refine ⟨hc, ?_⟩
      have h3 : Complex.abs (toC A) ^ 2 < ((c : ℝ) * Complex.abs (toC B)) ^ 2 := by
        have := Complex.abs.nonneg (toC A)
        nlinarith
      rw [abs_toC_sq, mul_pow, abs_toC_sq] at h3
      have hq : ((normSq A : ℚ) : ℝ) < ((c : ℚ) : ℝ) ^ 2 * ((normSq B : ℚ) : ℝ) := h3
      exact_mod_cast hq

theorem absLtConst_iff (A : QComplex) (c : ℚ) :
    absLtConst A c ↔ Complex.abs (toC A) < (c : ℝ) := by
  unfold absLtConst
  rcases le_or_lt c 0 with hc | hc
  · have hcR : (c : ℝ) ≤ 0 := by exact_mod_cast hc
    constructor
    · rintro ⟨h, -⟩
      exact absurd h (not_lt.mpr hc)
    · intro h
      exact absurd (lt_of_le_of_lt (Complex.abs.nonneg _) h) (not_lt.mpr hcR)
  · have hcR : (0 : ℝ) < (c : ℝ) := by exact_mod_cast hc
    constructor
    · rintro ⟨-, h⟩
      have h3 : Complex.abs (toC A) ^ 2 < ((c : ℝ)) ^ 2 := by
        rw [abs_toC_sq]
        exact_mod_cast h
      exact lt_of_pow_lt_pow_left₀ 2 hcR.le h3
    · intro h
      refine ⟨hc, ?_⟩
      have h3 : Complex.abs (toC A) ^ 2 < ((c : ℝ)) ^ 2 := by
        have := Complex.abs.nonneg (toC A)
        nlinarith
      rw [abs_toC_sq] at h3
      exact_mod_cast h3

theorem absGtConst_iff (A : QComplex) (c : ℚ) :
    absGtConst A c ↔ (c : ℝ) < Complex.abs (toC A) := by
  unfold absGtConst
  rcases lt_or_le c 0 with hc | hc
  · have hcR : (c : ℝ) < 0 := by exact_mod_cast hc
    constructor
    · intro _
      exact lt_of_lt_of_le hcR (Complex.abs.nonneg _)
    · intro _
      exact Or.inl hc
  · have hcR : (0 : ℝ) ≤ (c : ℝ) := by exact_mod_cast hc
    constructor
    · rintro (h | ⟨-, h⟩)
      · exact absurd h (not_lt.mpr hc)
      · have h3 : ((c : ℝ)) ^ 2 < Complex.abs (toC A) ^ 2 := by
          rw [abs_toC_sq]
          exact_mod_cast h
        exact lt_of_pow_lt_pow_left₀ 2 (Complex.abs.nonneg _) h3
    · intro h
      refine Or.inr ⟨hc, ?_⟩
      have h3 : ((c : ℝ)) ^ 2 < Complex.abs (toC A) ^ 2 := by nlinarith
      rw [abs_toC_sq] at h3
      exact_mod_cast h3

theorem normSq_lt_iff (A B : QComplex) :
    normSq A < normSq B ↔ Complex.abs (toC A) < Complex.abs (toC B) := by
  constructor
  · intro h
    have h3 : Complex.abs (toC A) ^ 2 < Complex.abs (toC B) ^ 2 := by
      rw [abs_toC_sq, abs_toC_sq]
      exact_mod_cast h
    exact lt_of_pow_lt_pow_left₀ 2 (Complex.abs.nonneg _) h3
  · intro h
    have h3 : Complex.abs (toC A) ^ 2 < Complex.abs (toC B) ^ 2 := by
      have := Complex.abs.nonneg (toC A)
      nlinarith
    rw [abs_toC_sq, abs_toC_sq] at h3
    exact_mod_cast h3

theorem neg_eq_zero_iff_q (x : QComplex) : -x = 0 ↔ x = 0 := by
  cases x
  simp [neg_def, zero_def]

theorem neg_neg_q (x : QComplex) : -(-x) = x := by
  cases x
  simp [neg_def]

theorem eq_zero_iff_q (x : QComplex) : x = 0 ↔ x.re = 0 ∧ x.im = 0 := by
  cases x
  show (_ : QComplex) = ⟨0, 0⟩ ↔ _
  rw [QComplex.mk.injEq]

theorem band_iff (z : QComplex) (bt : ℚ) :
    (absGtConst z (3 / 4) ∧ ¬ absGtConst z bt) ↔
      ((3 / 4 : ℝ) < Complex.abs (toC z) ∧ Complex.abs (toC z) ≤ (bt : ℝ)) := by
  rw [absGtConst_iff, absGtConst_iff, not_lt]
  have h34 : ((3 / 4 : ℚ) : ℝ) = (3 / 4 : ℝ) := by norm_num
  rw [h34]

theorem normSq_eq_iff (A B : QComplex) :
    normSq A = normSq B ↔ Complex.abs (toC A) = Complex.abs (toC B) := by
  constructor
  · intro h
    have h1 : Complex.abs (toC A) ^ 2 = Complex.abs (toC B) ^ 2 := by
      rw [abs_toC_sq, abs_toC_sq]
      exact_mod_cast h
    have hA := Complex.abs.nonneg (toC A)
    have hB := Complex.abs.nonneg (toC B)
    nlinarith
  · intro h
    have h1 : Complex.abs (toC A) ^ 2 = Complex.abs (toC B) ^ 2 := by rw [h]
    rw [abs_toC_sq, abs_toC_sq] at h1
    exact_mod_cast h1

end Aqueeq

namespace Aqueeq

/-! ### Properties of the series loop -/

theorem seriesLoop_of_gt (alpha z : QComplex) (tol : ℚ) (effMax : ℕ)
    (fuel : ℕ) (S term : QComplex) (k : ℕ) (h : effMax < k) :
    seriesLoop alpha z tol effMax fuel S term k = (S, term, k) := by
  cases fuel with
  | zero => rfl
  | succ fuel =>
    simp only [seriesLoop]
    rw [if_neg (not_le.mpr h)]

theorem seriesLoop_k_le (alpha z : QComplex) (tol : ℚ) (effMax : ℕ) :
    ∀ (fuel : ℕ) (S term : QComplex) (k : ℕ), k ≤ effMax + 1 →
      (seriesLoop alpha z tol effMax fuel S term k).2.2 ≤ effMax + 1 := by
  intro fuel
  induction fuel with
  | zero =>
    intro S term k hk
    exact hk
  | succ fuel ih =>
    intro S term k hk
    simp only [seriesLoop]
    split_ifs with h1 h2 h3
    · exact le_trans h1 (Nat.le_succ _)
    · exact le_trans h1 (Nat.le_succ _)
    · exact ih _ _ _ (Nat.succ_le_succ h1)
    · exact hk

theorem seriesLoop_exhaust (alpha z : QComplex) (tol : ℚ) (effMax : ℕ) :
    ∀ (fuel : ℕ) (S term : QComplex) (k : ℕ), k ≤ effMax →
      (seriesLoop alpha z tol effMax fuel S term k).2.2 = effMax + 1 →
      ¬ absLtScaled (seriesLoop alpha z tol effMax fuel S term k).2.1 tol
        (seriesLoop alpha z tol effMax fuel S term k).1 := by
  intro fuel
  induction fuel with
  | zero =>
    intro S term k hk hke
    simp only [seriesLoop] at hke
    omega
  | succ fuel ih =>
    intro S term k hk hke
    simp only [seriesLoop] at hke ⊢
    split_ifs at hke ⊢ with h1 h2
    · simp only at hke
      omega
    · simp only at hke
      omega
    · rcases Nat.lt_or_ge k effMax with hlt | hge
      · exact ih _ _ _ (by omega) hke
      · have hk1 : effMax < k + 1 := by omega
        rw [seriesLoop_of_gt alpha z tol effMax fuel _ _ _ hk1] at hke ⊢
        exact h2

theorem le_effectiveMax (mt : ℕ) (z : QComplex) (bt : ℚ) :
    mt ≤ effectiveMax mt z bt := by
  unfold effectiveMax
  split_ifs
  · exact le_max_left _ _
  · exact le_refl _

/-! ### Branch reduction of `run` -/

theorem run_reaches_precond (x y alpha : QComplex) (tol : ℚ) (mt : ℕ) (bt : ℚ)
    (hx : x ≠ 0) (hy : y ≠ 0) (hs : x + y ≠ 0) (hm : normSq x ≠ normSq y) :
    run x y alpha tol mt bt = stage34 alpha tol mt bt (precondA x y) (precondZ x y) := by
  have h1 : ¬ (x = 0 ∧ y ≠ 0) := fun h => hx h.1
  have h2 : ¬ (y = 0 ∧ x ≠ 0) := fun h => hy h.1
  have h3 : ¬ (x = -y ∧ alpha.im = 0 ∧ alpha.re.den = 1) :=
    fun h => hs (eq_neg_imp_add_zero h.1)
  unfold run
  rw [if_neg h1, if_neg h2, if_neg h3, if_neg hs, if_pos hm.lt_or_lt]

theorem stage34_series (alpha : QComplex) (tol : ℚ) (mt : ℕ) (bt : ℚ) (A z : QComplex)
    (hzb : ¬ absGtConst z bt) :
    stage34 alpha tol mt bt A z =
      Except.ok (Branch.series A (seriesRun alpha z tol (effectiveMax mt z bt)).1,
        ⟨(seriesRun alpha z tol (effectiveMax mt z bt)).2.2, false, some z, none,
          some (seriesRun alpha z tol (effectiveMax mt z bt)).2.1,
          some (decide (absLtScaled (seriesRun alpha z tol (effectiveMax mt z bt)).2.1 tol
            (seriesRun alpha z tol (effectiveMax mt z bt)).1)), some A⟩,
        if effectiveMax mt z bt ≤ (seriesRun alpha z tol (effectiveMax mt z bt)).2.2 ∧
            ¬ absLtScaled (seriesRun alpha z tol (effectiveMax mt z bt)).2.1 tol
              (seriesRun alpha z tol (effectiveMax mt z bt)).1 then
          [Advisory.nonConvergence (effectiveMax mt z bt) z
            (seriesRun alpha z tol (effectiveMax mt z bt)).2.1]
        else []) := by
  unfold stage34
  rw [if_neg hzb]

theorem run_error_inv (x y alpha : QComplex) (tol : ℚ) (mt : ℕ) (bt : ℚ) (msg : String)
    (h : run x y alpha tol mt bt = Except.error msg) :
    msg = zeroSumMsg ∧ x + y = 0 ∧ ¬ (alpha.im = 0 ∧ 0 < alpha.re) := by
  unfold run stage34 at h
  split_ifs at h
  injection h with h'
  refine ⟨h'.symm, by assumption, fun hc => ?_⟩
  have hneg : ¬ (0 < alpha.re ∧ alpha.im = 0) := by assumption
  exact hneg ⟨hc.2, hc.1⟩

theorem map_eq_error_inv {α β : Type} (f : α → β) (e : Except String α) (msg : String)
    (h : Except.map f e = Except.error msg) : e = Except.error msg := by
  cases e with
  | error e =>
    simp only [Except.map] at h
    injection h with h'
    rw [h']
  | ok a =>
    simp only [Except.map] at h
    exact absurd h (by simp)

theorem aqueeq_only_zero_sum_errors : onlyZeroSumErrors := by
  intro x y alpha tol mt bt msg h
  unfold aqueeq_binomial at h
  exact run_error_inv x y alpha tol mt bt msg (map_eq_error_inv _ _ _ h)

end Aqueeq

namespace Aqueeq

/-! ### Projections of the arithmetic literals -/

theorem one_re : (1 : QComplex).re = 1 := rfl

theorem one_im : (1 : QComplex).im = 0 := rfl

theorem zero_re : (0 : QComplex).re = 0 := rfl

theorem zero_im : (0 : QComplex).im = 0 := rfl

theorem add_neg_self_q (x : QComplex) : x + -x = 0 := by
  cases x
  simp [add_def, neg_def, zero_def]

/-! ### Concrete evaluations used by counterexamples and witnesses

The run of `aqueeq_binomial(4, 1, 1/2, tol = 1e-12, max_terms = 1,
boundary_threshold = 0.9)`: the preconditioner picks `A = 4`, `z = 1/4`,
the band is not active so `effective_max = 1`, and the single loop
iteration fails both convergence tests, leaving `k = 2` at exit. -/

theorem cex_z : precondZ ⟨4, 0⟩ ⟨1, 0⟩ = ⟨1/4, 0⟩ := by
  unfold precondZ
  rw [if_neg (by norm_num [normSq])]
  norm_num [div_def, inv_def, mul_def, normSq, QComplex.mk.injEq]

theorem cex_A : precondA ⟨4, 0⟩ ⟨1, 0⟩ = ⟨4, 0⟩ := by
  unfold precondA
  rw [if_neg (by norm_num [normSq])]

theorem cex_eff : effectiveMax 1 ⟨1/4, 0⟩ (9/10) = 1 := by
  unfold effectiveMax
  rw [if_neg (by norm_num [absGtConst, normSq])]

theorem cex_loop :
    seriesRun ⟨1/2, 0⟩ ⟨1/4, 0⟩ (1/10^12) 1 = (⟨9/8, 0⟩, ⟨1/8, 0⟩, 2) := by
  unfold seriesRun
  simp only [seriesLoop]
  norm_num [absLtScaled, absLtConst, normSq, div_def, inv_def, mul_def, add_def,
    sub_def, one_re, one_im, ofQ, QComplex.mk.injEq]

theorem cex_run :
    run ⟨4, 0⟩ ⟨1, 0⟩ ⟨1/2, 0⟩ (1/10^12) 1 (9/10) =
      Except.ok (Branch.series ⟨4, 0⟩ ⟨9/8, 0⟩,
        ⟨2, false, some ⟨1/4, 0⟩, none, some ⟨1/8, 0⟩, some false, some ⟨4, 0⟩⟩,
        [Advisory.nonConvergence 1 ⟨1/4, 0⟩ ⟨1/8, 0⟩]) := by
  rw [run_reaches_precond _ _ _ _ _ _
      (by norm_num [eq_zero_iff_q])
      (by norm_num [eq_zero_iff_q])
      (by norm_num [add_def, eq_zero_iff_q])
      (by norm_num [normSq])]
  rw [cex_z, cex_A]
  rw [stage34_series _ _ _ _ _ _ (by norm_num [absGtConst, normSq])]
  rw [cex_eff, cex_loop]
  rw [decide_eq_false (by norm_num [absLtScaled, normSq])]
  rw [if_pos ⟨by norm_num, by norm_num [absLtScaled, normSq]⟩]

/-! ### The claims -/

/-- Claim C1 (amended): for every `x` and exponent `alpha`,
`evaluate(x, -x, alpha)` raises the zero-sum domain error exactly when
`alpha` is neither a real integer nor a positive real, and returns `0`
exactly when `alpha` is a real integer or a positive real.  The frozen
claim demanded an error for every complex or non-positive real `alpha`,
but a real non-positive integer `alpha` is caught first by the
cancelling-operands branch (source line 48) and yields `0`; see the
counterexample. -/
theorem claim1_zero_sum_exact (x alpha : QComplex) (tol : ℚ) (mt : ℕ) (bt : ℚ) :
    (aqueeq_binomial x (-x) alpha tol mt bt = Except.error zeroSumMsg ↔
      ¬ (alpha.im = 0 ∧ (alpha.re.den = 1 ∨ 0 < alpha.re))) ∧
    (Except.map Prod.fst (aqueeq_binomial x (-x) alpha tol mt bt) =
        Except.ok (0 : ℂ) ↔
      alpha.im = 0 ∧ (alpha.re.den = 1 ∨ 0 < alpha.re)) := by
  have h1 : ¬ (x = 0 ∧ -x ≠ 0) := by
    rintro ⟨h, hn⟩
    exact hn (by rw [h]; exact (neg_eq_zero_iff_q 0).mpr rfl)
  have h2 : ¬ (-x = 0 ∧ x ≠ 0) := by
    rintro ⟨h, hn⟩
    exact hn ((neg_eq_zero_iff_q x).mp h)
  unfold aqueeq_binomial run
  rw [if_neg h1, if_neg h2]
  by_cases hint : alpha.im = 0 ∧ alpha.re.den = 1
  · rw [if_pos ⟨(neg_neg_q x).symm, hint.1, hint.2⟩]
    constructor
    · constructor
      · intro h
        exact absurd h (by simp [Except.map])
      · intro h
        exact absurd ⟨hint.1, Or.inl hint.2⟩ h
    · constructor
      · intro _
        exact ⟨hint.1, Or.inl hint.2⟩
      · intro _
        rfl
  · rw [if_neg (fun h => hint ⟨h.2.1, h.2.2⟩), if_pos (add_neg_self_q x)]
    by_cases hpos : 0 < alpha.re ∧ alpha.im = 0
    · rw [if_pos hpos]
      constructor
      · constructor
        · intro h
          exact absurd h (by simp [Except.map])
        · intro h
          exact absurd ⟨hpos.2, Or.inr hpos.1⟩ h
      · constructor
        · intro _
          exact ⟨hpos.2, Or.inr hpos.1⟩
        · intro _
          rfl
    · rw [if_neg hpos]
      constructor
      · constructor
        · intro _
          rintro ⟨him, hd | hp⟩
          · exact hint ⟨him, hd⟩
          · exact hpos ⟨hp, him⟩
        · intro _
          rfl
      · constructor
        · intro h
          exact absurd h (by simp [Except.map])
        · rintro ⟨him, hd | hp⟩
          · exact absurd ⟨him, hd⟩ hint
          · exact absurd ⟨hp, him⟩ hpos

/-- Counterexample to the frozen claim C1: `alpha = -2` is real with
`alpha <= 0`, so the claim demands a DomainError, but
`evaluate(1, -1, -2)` returns `0` (the cancelling-operands branch with
real integer exponent matches before the zero-sum check). -/
theorem claim1_counterexample :
    aqueeq_binomial ⟨1, 0⟩ ⟨-1, 0⟩ ⟨-2, 0⟩ (1/10^12) 100 (9/10) =
      Except.ok (0, ⟨0, false, none, none, none, none, none⟩, []) := by
  unfold aqueeq_binomial run
  rw [if_neg (by norm_num [eq_zero_iff_q]),
    if_neg (by norm_num [eq_zero_iff_q]),
    if_pos ⟨by norm_num [neg_def, QComplex.mk.injEq], rfl, by norm_num⟩]
  rfl

/-- Claim C10: for every real integer exponent `alpha` (including `0`
and negative integers), `evaluate(0, 0, alpha)` returns `0 + 0j` with
`terms_used = 0` and no error: the cancelling-operands branch (`x = -y`
with real integer exponent) matches before the zero-sum domain-error
check, so `0 ** 0` yields `0` rather than a DomainError. -/
theorem claim10_zero_zero_integer (alpha : QComplex) (tol : ℚ) (mt : ℕ) (bt : ℚ)
    (h1 : alpha.im = 0) (h2 : alpha.re.den = 1) :
    aqueeq_binomial 0 0 alpha tol mt bt =
      Except.ok (0, ⟨0, false, none, none, none, none, none⟩, []) := by
  have h0 : (0 : QComplex) = -(0 : QComplex) :=
    ((neg_eq_zero_iff_q 0).mpr rfl).symm
  unfold aqueeq_binomial run
  rw [if_neg (fun h => h.2 rfl), if_neg (fun h => h.2 rfl), if_pos ⟨h0, h1, h2⟩]
  rfl

theorem claim10_witness :
    ((⟨0, 0⟩ : QComplex).im = 0 ∧ ((⟨0, 0⟩ : QComplex).re).den = 1) ∧
    aqueeq_binomial 0 0 ⟨0, 0⟩ (1/10^12) 100 (9/10) =
      Except.ok (0, ⟨0, false, none, none, none, none, none⟩, []) :=
  ⟨⟨rfl, rfl⟩, claim10_zero_zero_integer ⟨0, 0⟩ (1/10^12) 100 (9/10) rfl rfl⟩

/-- Claim C7: for every `y ≠ 0` and every `alpha`, `evaluate(0, y, alpha)`
is the principal complex power `y ^ alpha`, with `terms_used = 0` and
`used_fallback = false` in the diagnostics. -/
theorem claim7_zero_first_operand (y alpha : QComplex) (tol : ℚ) (mt : ℕ) (bt : ℚ)
    (hy : y ≠ 0) :
    aqueeq_binomial 0 y alpha tol mt bt =
      Except.ok (toC y ^ toC alpha,
        ⟨0, false, some 0, none, none, none, none⟩, []) := by
  unfold aqueeq_binomial run
  rw [if_pos ⟨rfl, hy⟩]
  rfl

theorem claim7_witness :
    ((⟨2, 3⟩ : QComplex) ≠ 0) ∧
    aqueeq_binomial 0 ⟨2, 3⟩ ⟨1/2, 1⟩ (1/10^12) 100 (9/10) =
      Except.ok (toC ⟨2, 3⟩ ^ toC ⟨1/2, 1⟩,
        ⟨0, false, some 0, none, none, none, none⟩, []) := by
  have hy : (⟨2, 3⟩ : QComplex) ≠ 0 := by
    norm_num [eq_zero_iff_q]
  exact ⟨hy, claim7_zero_first_operand ⟨2, 3⟩ ⟨1/2, 1⟩ (1/10^12) 100 (9/10) hy⟩

/-- Claim C4: for `y = 0`, `x` real negative, `alpha` real, when the
bounded-denominator (limit 1000) rational approximation of `alpha` has an
odd denominator, `evaluate(x, 0, alpha)` returns the real odd root
`-(|x| ** alpha)` embedded in the complex plane with zero imaginary
part, and `terms_used = 0` in the diagnostics. -/
theorem claim4_real_odd_root (x alpha : QComplex) (tol : ℚ) (mt : ℕ) (bt : ℚ)
    (hxim : x.im = 0) (hxre : x.re < 0) (haim : alpha.im = 0)
    (hodd : (limit_denominator alpha.re 1000).den % 2 = 1) :
    aqueeq_binomial x 0 alpha tol mt bt =
      Except.ok (Complex.ofReal (-(((|x.re| : ℚ) : ℝ) ^ ((alpha.re : ℚ) : ℝ))),
        ⟨0, false, some 0, some "real odd root", none, none, none⟩, []) := by
  have hx0 : x ≠ 0 := ne_zero_of_re_neg hxre
  unfold aqueeq_binomial run
  rw [if_neg (fun h => hx0 h.1), if_pos ⟨rfl, hx0⟩, if_pos ⟨hxim, haim, hxre, hodd⟩]
  rfl

theorem claim4_witness :
    ((⟨-8, 0⟩ : QComplex).im = 0 ∧ (⟨-8, 0⟩ : QComplex).re < 0 ∧
      (⟨1/3, 0⟩ : QComplex).im = 0 ∧
      (limit_denominator ((⟨1/3, 0⟩ : QComplex).re) 1000).den % 2 = 1) ∧
    aqueeq_binomial ⟨-8, 0⟩ 0 ⟨1/3, 0⟩ (1/10^12) 100 (9/10) =
      Except.ok (Complex.ofReal
          (-(((|(⟨-8, 0⟩ : QComplex).re| : ℚ) : ℝ) ^ (((⟨1/3, 0⟩ : QComplex).re : ℚ) : ℝ))),
        ⟨0, false, some 0, some "real odd root", none, none, none⟩, []) := by
  have hre : (⟨-8, 0⟩ : QComplex).re < 0 := by norm_num
  have hodd : (limit_denominator ((⟨1/3, 0⟩ : QComplex).re) 1000).den % 2 = 1 := by
    unfold limit_denominator
    norm_num
  exact ⟨⟨rfl, hre, rfl, hodd⟩,
    claim4_real_odd_root ⟨-8, 0⟩ ⟨1/3, 0⟩ (1/10^12) 100 (9/10) rfl hre rfl hodd⟩

end Aqueeq

namespace Aqueeq

/-- Claim C2 (amended): for every invocation that reaches the series
summation stage, the evaluator returns the series result whose reported
`terms_used` is the loop counter at exit, and that counter is at most
`effective_max_terms + 1`, where `effective_max_terms = 3 * max_terms`
whenever `0.75 < |z| <= boundary_threshold` and `max_terms` otherwise.
The frozen claim's bound `terms_used <= effective_max_terms` fails: when
the loop exhausts its budget, `k` is incremented once more before the
`while` condition fails, so the reported count is `effective_max_terms + 1`
(see the counterexample). -/
theorem claim2_terms_bound (x y alpha : QComplex) (tol : ℚ) (mt : ℕ) (bt : ℚ)
    (hx : x ≠ 0) (hy : y ≠ 0) (hs : x + y ≠ 0)
    (hm : Complex.abs (toC x) ≠ Complex.abs (toC y))
    (hzb : Complex.abs (toC (precondZ x y)) ≤ (bt : ℝ)) :
    aqueeq_binomial x y alpha tol mt bt =
      Except.ok
        (Complex.exp (toC alpha * Complex.log (toC (precondA x y))) *
            toC (seriesRun alpha (precondZ x y) tol (effectiveMax mt (precondZ x y) bt)).1,
          ⟨(seriesRun alpha (precondZ x y) tol (effectiveMax mt (precondZ x y) bt)).2.2,
            false, some (precondZ x y), none,
            some (seriesRun alpha (precondZ x y) tol (effectiveMax mt (precondZ x y) bt)).2.1,
            some (decide (absLtScaled
              (seriesRun alpha (precondZ x y) tol (effectiveMax mt (precondZ x y) bt)).2.1 tol
              (seriesRun alpha (precondZ x y) tol (effectiveMax mt (precondZ x y) bt)).1)),
            some (precondA x y)⟩,
          if effectiveMax mt (precondZ x y) bt ≤
              (seriesRun alpha (precondZ x y) tol (effectiveMax mt (precondZ x y) bt)).2.2 ∧
              ¬ absLtScaled
                (seriesRun alpha (precondZ x y) tol (effectiveMax mt (precondZ x y) bt)).2.1 tol
                (seriesRun alpha (precondZ x y) tol (effectiveMax mt (precondZ x y) bt)).1 then
            [Advisory.nonConvergence (effectiveMax mt (precondZ x y) bt) (precondZ x y)
              (seriesRun alpha (precondZ x y) tol (effectiveMax mt (precondZ x y) bt)).2.1]
          else []) ∧
    (seriesRun alpha (precondZ x y) tol (effectiveMax mt (precondZ x y) bt)).2.2 ≤
      (if (3/4 : ℝ) < Complex.abs (toC (precondZ x y)) ∧
          Complex.abs (toC (precondZ x y)) ≤ (bt : ℝ) then 3 * mt else mt) + 1 := by
  have hm' : normSq x ≠ normSq y := fun h => hm ((normSq_eq_iff x y).mp h)
  have hzb' : ¬ absGtConst (precondZ x y) bt :=
    fun h => absurd ((absGtConst_iff _ _).mp h) (not_lt.mpr hzb)
  have heff : effectiveMax mt (precondZ x y) bt =
      (if (3/4 : ℝ) < Complex.abs (toC (precondZ x y)) ∧
          Complex.abs (toC (precondZ x y)) ≤ (bt : ℝ) then 3 * mt else mt) := by
    unfold effectiveMax
    by_cases hband : absGtConst (precondZ x y) (3/4) ∧ ¬ absGtConst (precondZ x y) bt
    · rw [if_pos hband, if_pos ((band_iff _ bt).mp hband)]
      omega
    · rw [if_neg hband, if_neg (fun h => hband ((band_iff _ bt).mpr h))]
  constructor
  · unfold aqueeq_binomial
    rw [run_reaches_precond x y alpha tol mt bt hx hy hs hm',
      stage34_series alpha tol mt bt (precondA x y) (precondZ x y) hzb']
    rfl
  · rw [← heff]
    exact seriesLoop_k_le alpha (precondZ x y) tol (effectiveMax mt (precondZ x y) bt)
      (effectiveMax mt (precondZ x y) bt + 1) 1 1 1 (by omega)

/-- Counterexample to the frozen claim C2: on
`evaluate(4, 1, 1/2, tol = 1e-12, max_terms = 1, boundary_threshold = 0.9)`
the ratio is `z = 1/4`, so `|z| <= 0.75` and `effective_max_terms`
equals `max_terms = 1`; yet the reported `terms_used` is `2`. -/
theorem claim2_counterexample :
    Except.map (fun p => p.2.1.terms_used)
        (aqueeq_binomial ⟨4, 0⟩ ⟨1, 0⟩ ⟨1/2, 0⟩ (1/10^12) 1 (9/10)) =
      Except.ok 2 ∧
    Complex.abs (toC (precondZ ⟨4, 0⟩ ⟨1, 0⟩)) ≤ (3/4 : ℝ) := by
  constructor
  · unfold aqueeq_binomial
    rw [cex_run]
    rfl
  · rw [cex_z, toC_mk_real, Complex.abs_ofReal, abs_of_nonneg (by norm_num)]
    norm_num

theorem claim2_witness :
    ((⟨4, 0⟩ : QComplex) ≠ 0) ∧ ((⟨1, 0⟩ : QComplex) ≠ 0) ∧
    ((⟨4, 0⟩ : QComplex) + ⟨1, 0⟩ ≠ 0) ∧
    (Complex.abs (toC ⟨4, 0⟩) ≠ Complex.abs (toC ⟨1, 0⟩)) ∧
    (Complex.abs (toC (precondZ ⟨4, 0⟩ ⟨1, 0⟩)) ≤ ((9/10 : ℚ) : ℝ)) ∧
    (seriesRun ⟨1/2, 0⟩ (precondZ ⟨4, 0⟩ ⟨1, 0⟩) (1/10^12)
        (effectiveMax 1 (precondZ ⟨4, 0⟩ ⟨1, 0⟩) (9/10))).2.2 ≤
      (if (3/4 : ℝ) < Complex.abs (toC (precondZ ⟨4, 0⟩ ⟨1, 0⟩)) ∧
          Complex.abs (toC (precondZ ⟨4, 0⟩ ⟨1, 0⟩)) ≤ ((9/10 : ℚ) : ℝ) then
        3 * 1 else 1) + 1 := by
  have hx : (⟨4, 0⟩ : QComplex) ≠ 0 := by norm_num [eq_zero_iff_q]
  have hy : (⟨1, 0⟩ : QComplex) ≠ 0 := by norm_num [eq_zero_iff_q]
  have hs : (⟨4, 0⟩ : QComplex) + ⟨1, 0⟩ ≠ 0 := by norm_num [add_def, eq_zero_iff_q]
  have hm : Complex.abs (toC ⟨4, 0⟩) ≠ Complex.abs (toC ⟨1, 0⟩) := by
    intro h
    have h2 := (normSq_eq_iff ⟨4, 0⟩ ⟨1, 0⟩).mpr h
    norm_num [normSq] at h2
  have hzb : Complex.abs (toC (precondZ ⟨4, 0⟩ ⟨1, 0⟩)) ≤ ((9/10 : ℚ) : ℝ) := by
    rw [cex_z, toC_mk_real, Complex.abs_ofReal, abs_of_nonneg (by norm_num)]
    norm_num
  exact ⟨hx, hy, hs, hm, hzb,
    (claim2_terms_bound ⟨4, 0⟩ ⟨1, 0⟩ ⟨1/2, 0⟩ (1/10^12) 1 (9/10) hx hy hs hm hzb).2⟩

/-- Claim C5: for every input that passes the edge-case resolver and the
preconditioner with `|z| > boundary_threshold`, the evaluator returns the
principal-branch fallback `exp(alpha * log(x + y))`, raises the
(non-fatal) boundary advisory carrying `z` and the threshold, and the
diagnostics report `used_fallback = true` and `terms_used = 0`; the
series branch never runs. -/
theorem claim5_boundary_fallback (x y alpha : QComplex) (tol : ℚ) (mt : ℕ) (bt : ℚ)
    (hx : x ≠ 0) (hy : y ≠ 0) (hs : x + y ≠ 0)
    (hm : Complex.abs (toC x) ≠ Complex.abs (toC y))
    (hz : (bt : ℝ) < Complex.abs (toC (precondZ x y))) :
    aqueeq_binomial x y alpha tol mt bt =
      Except.ok (Complex.exp (toC alpha * Complex.log (toC (x + y))),
        ⟨0, true, some (precondZ x y), none, none, none, none⟩,
        [Advisory.boundary (precondZ x y) bt]) := by
  have hm' : normSq x ≠ normSq y := fun h => hm ((normSq_eq_iff x y).mp h)
  unfold aqueeq_binomial
  rw [run_reaches_precond x y alpha tol mt bt hx hy hs hm']
  unfold stage34
  rw [if_pos ((absGtConst_iff _ _).mpr hz)]
  rfl

theorem claim5_witness :
    ((⟨20, 0⟩ : QComplex) ≠ 0) ∧ ((⟨19, 0⟩ : QComplex) ≠ 0) ∧
    ((⟨20, 0⟩ : QComplex) + ⟨19, 0⟩ ≠ 0) ∧
    (Complex.abs (toC ⟨20, 0⟩) ≠ Complex.abs (toC ⟨19, 0⟩)) ∧
    (((9/10 : ℚ) : ℝ) < Complex.abs (toC (precondZ ⟨20, 0⟩ ⟨19, 0⟩))) ∧
    aqueeq_binomial ⟨20, 0⟩ ⟨19, 0⟩ ⟨1, 0⟩ (1/10^12) 100 (9/10) =
      Except.ok (Complex.exp (toC ⟨1, 0⟩ * Complex.log (toC ((⟨20, 0⟩ : QComplex) + ⟨19, 0⟩))),
        ⟨0, true, some (precondZ ⟨20, 0⟩ ⟨19, 0⟩), none, none, none, none⟩,
        [Advisory.boundary (precondZ ⟨20, 0⟩ ⟨19, 0⟩) (9/10)]) := by
  have hz0 : precondZ ⟨20, 0⟩ ⟨19, 0⟩ = ⟨19/20, 0⟩ := by
    unfold precondZ
    rw [if_neg (by norm_num [normSq])]
    norm_num [div_def, inv_def, mul_def, normSq, QComplex.mk.injEq]
  have hx : (⟨20, 0⟩ : QComplex) ≠ 0 := by norm_num [eq_zero_iff_q]
  have hy : (⟨19, 0⟩ : QComplex) ≠ 0 := by norm_num [eq_zero_iff_q]
  have hs : (⟨20, 0⟩ : QComplex) + ⟨19, 0⟩ ≠ 0 := by norm_num [add_def, eq_zero_iff_q]
  have hm : Complex.abs (toC ⟨20, 0⟩) ≠ Complex.abs (toC ⟨19, 0⟩) := by
    intro h
    have h2 := (normSq_eq_iff ⟨20, 0⟩ ⟨19, 0⟩).mpr h
    norm_num [normSq] at h2
  have hz : ((9/10 : ℚ) : ℝ) < Complex.abs (toC (precondZ ⟨20, 0⟩ ⟨19, 0⟩)) := by
    rw [hz0, toC_mk_real, Complex.abs_ofReal, abs_of_nonneg (by norm_num)]
    norm_num
  exact ⟨hx, hy, hs, hm, hz,
    claim5_boundary_fallback ⟨20, 0⟩ ⟨19, 0⟩ ⟨1, 0⟩ (1/10^12) 100 (9/10) hx hy hs hm hz⟩

/-- Claim C6: for every `x, y` of equal magnitude with `x + y ≠ 0`,
`x ≠ 0`, `y ≠ 0`, and every `alpha`, the evaluator returns the
principal-branch fallback `exp(alpha * log(x + y))`, raises the
(non-fatal) equal-magnitude advisory, and the diagnostics report
`used_fallback = true` and `terms_used = 0`. -/
theorem claim6_equal_magnitude (x y alpha : QComplex) (tol : ℚ) (mt : ℕ) (bt : ℚ)
    (hx : x ≠ 0) (hy : y ≠ 0) (hs : x + y ≠ 0)
    (hm : Complex.abs (toC x) = Complex.abs (toC y)) :
    aqueeq_binomial x y alpha tol mt bt =
      Except.ok (Complex.exp (toC alpha * Complex.log (toC (x + y))),
        ⟨0, true, none, none, none, none, none⟩, [Advisory.equalMag]) := by
  have hm' : normSq x = normSq y := (normSq_eq_iff x y).mpr hm
  have h1 : ¬ (x = 0 ∧ y ≠ 0) := fun h => hx h.1
  have h2 : ¬ (y = 0 ∧ x ≠ 0) := fun h => hy h.1
  have h3 : ¬ (x = -y ∧ alpha.im = 0 ∧ alpha.re.den = 1) :=
    fun h => hs (eq_neg_imp_add_zero h.1)
  have h5 : ¬ (normSq x < normSq y ∨ normSq y < normSq x) := by
    rw [hm']
    simp
  unfold aqueeq_binomial run
  rw [if_neg h1, if_neg h2, if_neg h3, if_neg hs, if_neg h5]
  rfl

theorem claim6_witness :
    ((⟨3, 4⟩ : QComplex) ≠ 0) ∧ ((⟨5, 0⟩ : QComplex) ≠ 0) ∧
    ((⟨3, 4⟩ : QComplex) + ⟨5, 0⟩ ≠ 0) ∧
    (Complex.abs (toC ⟨3, 4⟩) = Complex.abs (toC ⟨5, 0⟩)) ∧
    aqueeq_binomial ⟨3, 4⟩ ⟨5, 0⟩ ⟨2, 1⟩ (1/10^12) 100 (9/10) =
      Except.ok (Complex.exp (toC ⟨2, 1⟩ * Complex.log (toC ((⟨3, 4⟩ : QComplex) + ⟨5, 0⟩))),
        ⟨0, true, none, none, none, none, none⟩, [Advisory.equalMag]) := by
  have hx : (⟨3, 4⟩ : QComplex) ≠ 0 := by norm_num [eq_zero_iff_q]
  have hy : (⟨5, 0⟩ : QComplex) ≠ 0 := by norm_num [eq_zero_iff_q]
  have hs : (⟨3, 4⟩ : QComplex) + ⟨5, 0⟩ ≠ 0 := by norm_num [add_def, eq_zero_iff_q]
  have hm : Complex.abs (toC ⟨3, 4⟩) = Complex.abs (toC ⟨5, 0⟩) :=
    (normSq_eq_iff ⟨3, 4⟩ ⟨5, 0⟩).mp (by norm_num [normSq])
  exact ⟨hx, hy, hs, hm,
    claim6_equal_magnitude ⟨3, 4⟩ ⟨5, 0⟩ ⟨2, 1⟩ (1/10^12) 100 (9/10) hx hy hs hm⟩

end Aqueeq

namespace Aqueeq

/-- Claim C8: for `x, y` both nonzero with distinct magnitudes and
nonzero sum, the preconditioner selects `A` as the operand of strictly
larger magnitude, sets `z` to the other operand divided by `A`, the
resulting ratio satisfies `|z| < 1`, and the evaluator proceeds into the
boundary-policy/series stage with exactly this `A` and `z`. -/
theorem claim8_preconditioner (x y alpha : QComplex) (tol : ℚ) (mt : ℕ) (bt : ℚ)
    (hx : x ≠ 0) (hy : y ≠ 0)
    (hm : Complex.abs (toC x) ≠ Complex.abs (toC y)) (hs : x + y ≠ 0) :
    ((precondA x y = x ∧ precondZ x y = y / x ∧
        Complex.abs (toC y) < Complex.abs (toC x)) ∨
      (precondA x y = y ∧ precondZ x y = x / y ∧
        Complex.abs (toC x) < Complex.abs (toC y))) ∧
    Complex.abs (toC (precondZ x y)) < 1 ∧
    run x y alpha tol mt bt = stage34 alpha tol mt bt (precondA x y) (precondZ x y) := by
  have hm' : normSq x ≠ normSq y := fun h => hm ((normSq_eq_iff x y).mp h)
  have habs : ∀ a b : QComplex, b ≠ 0 → normSq a < normSq b →
      Complex.abs (toC (a / b)) < 1 := by
    intro a b hb hab
    rw [toC_div, map_div₀, div_lt_one (Complex.abs.pos (fun h => hb (toC_eq_zero.mp h)))]
    exact (normSq_lt_iff a b).mp hab
  rcases hm'.lt_or_lt with h | h
  · refine ⟨Or.inr ⟨?_, ?_, (normSq_lt_iff x y).mp h⟩, ?_,
      run_reaches_precond x y alpha tol mt bt hx hy hs hm'⟩
    · unfold precondA
      rw [if_pos h]
    · unfold precondZ
      rw [if_pos h]
    · unfold precondZ
      rw [if_pos h]
      exact habs x y hy h
  · refine ⟨Or.inl ⟨?_, ?_, (normSq_lt_iff y x).mp h⟩, ?_,
      run_reaches_precond x y alpha tol mt bt hx hy hs hm'⟩
    · unfold precondA
      rw [if_neg (not_lt.mpr h.le)]
    · unfold precondZ
      rw [if_neg (not_lt.mpr h.le)]
    · unfold precondZ
      rw [if_neg (not_lt.mpr h.le)]
      exact habs y x hx h

theorem claim8_witness :
    ((⟨1, 0⟩ : QComplex) ≠ 0) ∧ ((⟨2, 0⟩ : QComplex) ≠ 0) ∧
    (Complex.abs (toC ⟨1, 0⟩) ≠ Complex.abs (toC ⟨2, 0⟩)) ∧
    ((⟨1, 0⟩ : QComplex) + ⟨2, 0⟩ ≠ 0) ∧
    (((precondA ⟨1, 0⟩ ⟨2, 0⟩ = ⟨1, 0⟩ ∧ precondZ ⟨1, 0⟩ ⟨2, 0⟩ = ⟨2, 0⟩ / ⟨1, 0⟩ ∧
        Complex.abs (toC ⟨2, 0⟩) < Complex.abs (toC ⟨1, 0⟩)) ∨
      (precondA ⟨1, 0⟩ ⟨2, 0⟩ = ⟨2, 0⟩ ∧ precondZ ⟨1, 0⟩ ⟨2, 0⟩ = ⟨1, 0⟩ / ⟨2, 0⟩ ∧
        Complex.abs (toC ⟨1, 0⟩) < Complex.abs (toC ⟨2, 0⟩))) ∧
    Complex.abs (toC (precondZ ⟨1, 0⟩ ⟨2, 0⟩)) < 1 ∧
    run ⟨1, 0⟩ ⟨2, 0⟩ ⟨1/2, 0⟩ (1/10^12) 100 (9/10) =
      stage34 ⟨1/2, 0⟩ (1/10^12) 100 (9/10) (precondA ⟨1, 0⟩ ⟨2, 0⟩) (precondZ ⟨1, 0⟩ ⟨2, 0⟩)) := by
  have hx : (⟨1, 0⟩ : QComplex) ≠ 0 := by norm_num [eq_zero_iff_q]
  have hy : (⟨2, 0⟩ : QComplex) ≠ 0 := by norm_num [eq_zero_iff_q]
  have hs : (⟨1, 0⟩ : QComplex) + ⟨2, 0⟩ ≠ 0 := by norm_num [add_def, eq_zero_iff_q]
  have hm : Complex.abs (toC ⟨1, 0⟩) ≠ Complex.abs (toC ⟨2, 0⟩) := by
    intro h
    have h2 := (normSq_eq_iff ⟨1, 0⟩ ⟨2, 0⟩).mpr h
    norm_num [normSq] at h2
  exact ⟨hx, hy, hm, hs,
    claim8_preconditioner ⟨1, 0⟩ ⟨2, 0⟩ ⟨1/2, 0⟩ (1/10^12) 100 (9/10) hx hy hm hs⟩

/-- Claim C9: when the series loop exhausts `effective_max_terms` without
either convergence test firing (the exit counter equals
`effective_max_terms + 1`), the evaluator still returns the partial-sum
result `exp(alpha * log(A)) * S` and emits the non-fatal non-convergence
advisory carrying the term budget, `z` and the final term; moreover no
advisory ever aborts a call: the only error the evaluator can produce is
the zero-sum domain error (`onlyZeroSumErrors`). -/
theorem claim9_nonconvergence (x y alpha : QComplex) (tol : ℚ) (mt : ℕ) (bt : ℚ)
    (hmt : 1 ≤ mt) (hx : x ≠ 0) (hy : y ≠ 0) (hs : x + y ≠ 0)
    (hm : Complex.abs (toC x) ≠ Complex.abs (toC y))
    (hzb : Complex.abs (toC (precondZ x y)) ≤ (bt : ℝ))
    (hex : (seriesRun alpha (precondZ x y) tol (effectiveMax mt (precondZ x y) bt)).2.2 =
      effectiveMax mt (precondZ x y) bt + 1) :
    aqueeq_binomial x y alpha tol mt bt =
      Except.ok
        (Complex.exp (toC alpha * Complex.log (toC (precondA x y))) *
            toC (seriesRun alpha (precondZ x y) tol (effectiveMax mt (precondZ x y) bt)).1,
          ⟨effectiveMax mt (precondZ x y) bt + 1, false, some (precondZ x y), none,
            some (seriesRun alpha (precondZ x y) tol (effectiveMax mt (precondZ x y) bt)).2.1,
            some false, some (precondA x y)⟩,
          [Advisory.nonConvergence (effectiveMax mt (precondZ x y) bt) (precondZ x y)
            (seriesRun alpha (precondZ x y) tol (effectiveMax mt (precondZ x y) bt)).2.1]) ∧
    onlyZeroSumErrors := by
  have hm' : normSq x ≠ normSq y := fun h => hm ((normSq_eq_iff x y).mp h)
  have hzb' : ¬ absGtConst (precondZ x y) bt :=
    fun h => absurd ((absGtConst_iff _ _).mp h) (not_lt.mpr hzb)
  have hnc : ¬ absLtScaled
      (seriesRun alpha (precondZ x y) tol (effectiveMax mt (precondZ x y) bt)).2.1 tol
      (seriesRun alpha (precondZ x y) tol (effectiveMax mt (precondZ x y) bt)).1 :=
    seriesLoop_exhaust alpha (precondZ x y) tol (effectiveMax mt (precondZ x y) bt)
      (effectiveMax mt (precondZ x y) bt + 1) 1 1 1
      (le_trans hmt (le_effectiveMax mt (precondZ x y) bt)) hex
  refine ⟨?_, aqueeq_only_zero_sum_errors⟩
  unfold aqueeq_binomial
  rw [run_reaches_precond x y alpha tol mt bt hx hy hs hm',
    stage34_series alpha tol mt bt (precondA x y) (precondZ x y) hzb']
  rw [hex, decide_eq_false hnc, if_pos ⟨by omega, hnc⟩]
  rfl

theorem claim9_witness :
    (1 ≤ 1) ∧
    ((seriesRun ⟨1/2, 0⟩ (precondZ ⟨4, 0⟩ ⟨1, 0⟩) (1/10^12)
        (effectiveMax 1 (precondZ ⟨4, 0⟩ ⟨1, 0⟩) (9/10))).2.2 =
      effectiveMax 1 (precondZ ⟨4, 0⟩ ⟨1, 0⟩) (9/10) + 1) ∧
    onlyZeroSumErrors := by
  have hx : (⟨4, 0⟩ : QComplex) ≠ 0 := by norm_num [eq_zero_iff_q]
  have hy : (⟨1, 0⟩ : QComplex) ≠ 0 := by norm_num [eq_zero_iff_q]
  have hs : (⟨4, 0⟩ : QComplex) + ⟨1, 0⟩ ≠ 0 := by norm_num [add_def, eq_zero_iff_q]
  have hm : Complex.abs (toC ⟨4, 0⟩) ≠ Complex.abs (toC ⟨1, 0⟩) := by
    intro h
    have h2 := (normSq_eq_iff ⟨4, 0⟩ ⟨1, 0⟩).mpr h
    norm_num [normSq] at h2
  have hzb : Complex.abs (toC (precondZ ⟨4, 0⟩ ⟨1, 0⟩)) ≤ ((9/10 : ℚ) : ℝ) := by
    rw [cex_z, toC_mk_real, Complex.abs_ofReal, abs_of_nonneg (by norm_num)]
    norm_num
  have hex : (seriesRun ⟨1/2, 0⟩ (precondZ ⟨4, 0⟩ ⟨1, 0⟩) (1/10^12)
      (effectiveMax 1 (precondZ ⟨4, 0⟩ ⟨1, 0⟩) (9/10))).2.2 =
      effectiveMax 1 (precondZ ⟨4, 0⟩ ⟨1, 0⟩) (9/10) + 1 := by
    rw [cex_z, cex_eff, cex_loop]
  exact ⟨le_refl 1, hex,
    (claim9_nonconvergence ⟨4, 0⟩ ⟨1, 0⟩ ⟨1/2, 0⟩ (1/10^12) 1 (9/10)
      (le_refl 1) hx hy hs hm hzb hex).2⟩

/-- Claim C3: one iteration of the series loop, for `k` within the
budget: the term is first updated by the multiplicative recurrence
`term_k = term_(k-1) * (alpha - k + 1) * z / k`; then, before the term is
folded into `S`, the loop stops (without accumulating) when
`|term| < 1e-16 * |S|` or `|term| < 1e-14`; otherwise `S` is incremented
by the term and the loop stops afterwards when `|term| < tol * |S|`,
else it continues with `k + 1`.  The comparisons on the right are
genuine real absolute-value comparisons. -/
theorem claim3_series_step (alpha z : QComplex) (tol : ℚ) (effMax fuel : ℕ)
    (S term : QComplex) (k : ℕ) (hk : k ≤ effMax) :
    seriesLoop alpha z tol effMax (fuel + 1) S term k =
      (if Complex.abs (toC (term * ((alpha - ofQ (k : ℚ) + 1) * z / ofQ (k : ℚ)))) <
            1 / 10 ^ 16 * Complex.abs (toC S) ∨
          Complex.abs (toC (term * ((alpha - ofQ (k : ℚ) + 1) * z / ofQ (k : ℚ)))) <
            1 / 10 ^ 14 then
        (S, term * ((alpha - ofQ (k : ℚ) + 1) * z / ofQ (k : ℚ)), k)
      else if Complex.abs (toC (term * ((alpha - ofQ (k : ℚ) + 1) * z / ofQ (k : ℚ)))) <
            (tol : ℝ) *
              Complex.abs (toC (S + term * ((alpha - ofQ (k : ℚ) + 1) * z / ofQ (k : ℚ)))) then
        (S + term * ((alpha - ofQ (k : ℚ) + 1) * z / ofQ (k : ℚ)),
          term * ((alpha - ofQ (k : ℚ) + 1) * z / ofQ (k : ℚ)), k)
      else
        seriesLoop alpha z tol effMax fuel
          (S + term * ((alpha - ofQ (k : ℚ) + 1) * z / ofQ (k : ℚ)))
          (term * ((alpha - ofQ (k : ℚ) + 1) * z / ofQ (k : ℚ))) (k + 1)) := by
  have e16 : ((1 / 10 ^ 16 : ℚ) : ℝ) = (1 / 10 ^ 16 : ℝ) := by norm_num
  have e14 : ((1 / 10 ^ 14 : ℚ) : ℝ) = (1 / 10 ^ 14 : ℝ) := by norm_num
  have hA : (absLtScaled (term * ((alpha - ofQ (k : ℚ) + 1) * z / ofQ (k : ℚ)))
        (1 / 10 ^ 16) S ∨
      absLtConst (term * ((alpha - ofQ (k : ℚ) + 1) * z / ofQ (k : ℚ))) (1 / 10 ^ 14)) ↔
      (Complex.abs (toC (term * ((alpha - ofQ (k : ℚ) + 1) * z / ofQ (k : ℚ)))) <
          1 / 10 ^ 16 * Complex.abs (toC S) ∨
        Complex.abs (toC (term * ((alpha - ofQ (k : ℚ) + 1) * z / ofQ (k : ℚ)))) <
          1 / 10 ^ 14) := by
    rw [absLtScaled_iff, absLtConst_iff, e16, e14]
  have hR : absLtScaled (term * ((alpha - ofQ (k : ℚ) + 1) * z / ofQ (k : ℚ))) tol
        (S + term * ((alpha - ofQ (k : ℚ) + 1) * z / ofQ (k : ℚ))) ↔
      Complex.abs (toC (term * ((alpha - ofQ (k : ℚ) + 1) * z / ofQ (k : ℚ)))) <
        (tol : ℝ) *
          Complex.abs (toC (S + term * ((alpha - ofQ (k : ℚ) + 1) * z / ofQ (k : ℚ)))) :=
    absLtScaled_iff _ tol _
  simp only [seriesLoop]
  rw [if_pos hk]
  by_cases h1 : absLtScaled (term * ((alpha - ofQ (k : ℚ) + 1) * z / ofQ (k : ℚ)))
      (1 / 10 ^ 16) S ∨
      absLtConst (term * ((alpha - ofQ (k : ℚ) + 1) * z / ofQ (k : ℚ))) (1 / 10 ^ 14)
  · rw [if_pos h1, if_pos (hA.mp h1)]
  · rw [if_neg h1, if_neg (fun h => h1 (hA.mpr h))]
    by_cases h2 : absLtScaled (term * ((alpha - ofQ (k : ℚ) + 1) * z / ofQ (k : ℚ))) tol
        (S + term * ((alpha - ofQ (k : ℚ) + 1) * z / ofQ (k : ℚ)))
    · rw [if_pos h2, if_pos (hR.mp h2)]
    · rw [if_neg h2, if_neg (fun h => h2 (hR.mpr h))]

theorem claim3_witness :
    (1 ≤ 1) ∧
    (seriesLoop ⟨1, 0⟩ ⟨1/2, 0⟩ 1 1 (0 + 1) 1 1 1 =
      (if Complex.abs (toC ((1 : QComplex) * ((⟨1, 0⟩ - ofQ ((1 : ℕ) : ℚ) + 1) * ⟨1/2, 0⟩ /
              ofQ ((1 : ℕ) : ℚ)))) <
            1 / 10 ^ 16 * Complex.abs (toC (1 : QComplex)) ∨
          Complex.abs (toC ((1 : QComplex) * ((⟨1, 0⟩ - ofQ ((1 : ℕ) : ℚ) + 1) * ⟨1/2, 0⟩ /
              ofQ ((1 : ℕ) : ℚ)))) < 1 / 10 ^ 14 then
        ((1 : QComplex),
          (1 : QComplex) * ((⟨1, 0⟩ - ofQ ((1 : ℕ) : ℚ) + 1) * ⟨1/2, 0⟩ / ofQ ((1 : ℕ) : ℚ)), 1)
      else if Complex.abs (toC ((1 : QComplex) * ((⟨1, 0⟩ - ofQ ((1 : ℕ) : ℚ) + 1) * ⟨1/2, 0⟩ /
              ofQ ((1 : ℕ) : ℚ)))) <
            ((1 : ℚ) : ℝ) *
              Complex.abs (toC ((1 : QComplex) + (1 : QComplex) *
                ((⟨1, 0⟩ - ofQ ((1 : ℕ) : ℚ) + 1) * ⟨1/2, 0⟩ / ofQ ((1 : ℕ) : ℚ)))) then
        ((1 : QComplex) + (1 : QComplex) *
            ((⟨1, 0⟩ - ofQ ((1 : ℕ) : ℚ) + 1) * ⟨1/2, 0⟩ / ofQ ((1 : ℕ) : ℚ)),
          (1 : QComplex) * ((⟨1, 0⟩ - ofQ ((1 : ℕ) : ℚ) + 1) * ⟨1/2, 0⟩ / ofQ ((1 : ℕ) : ℚ)), 1)
      else
        seriesLoop ⟨1, 0⟩ ⟨1/2, 0⟩ 1 1 0
          ((1 : QComplex) + (1 : QComplex) *
            ((⟨1, 0⟩ - ofQ ((1 : ℕ) : ℚ) + 1) * ⟨1/2, 0⟩ / ofQ ((1 : ℕ) : ℚ)))
          ((1 : QComplex) * ((⟨1, 0⟩ - ofQ ((1 : ℕ) : ℚ) + 1) * ⟨1/2, 0⟩ / ofQ ((1 : ℕ) : ℚ)))
          (1 + 1))) :=
  ⟨le_refl 1, claim3_series_step ⟨1, 0⟩ ⟨1/2, 0⟩ 1 1 0 1 1 1 (le_refl 1)⟩

end Aqueeq
